import Mathlib

/-!
Verification development for the usage-aggregation and agent-tracking core of
the claude-powerline statusline renderer.

The TypeScript sources are shallowly embedded:
* `src/segments/session.ts` (SessionProvider): token aggregation, cache-hit
  rate, burn rate, session info assembly.  Costs and rates are modelled as
  rationals (ℚ), timestamps as integers (milliseconds), JS `null`/`undefined`
  as `Option`.
* `src/segments/omc.ts` (OmcProvider): transcript replay for agent lifecycle
  tracking, the bounded agent registry with its eviction policy, the stale
  sweep, the tail reader, and the status parsers.  JS `Map` (insertion
  ordered, unique keys) is modelled by an association list with JS `Map`
  operations; the regular-expression extractions are modelled by explicit
  scanning functions over character lists with the same semantics on the
  shapes the code matches.
-/

/-! ## Embedding of src/segments/session.ts -/

/-- `SessionUsageEntry.message.usage` after `convertToSessionEntry`:
`input_tokens`/`output_tokens` are always present (defaulted with `|| 0`),
the cache fields stay optional. -/
structure Usage where
  input_tokens : Nat
  output_tokens : Nat
  cache_creation_input_tokens : Option Nat
  cache_read_input_tokens : Option Nat
deriving DecidableEq, Repr

/-- One usage entry of a session transcript (`SessionUsageEntry`).
The ISO timestamp string is embedded as its epoch value in milliseconds. -/
structure SessionUsageEntry where
  timestampMs : Int
  usage : Usage
  costUSD : Option ℚ
deriving DecidableEq, Repr

/-- `SessionUsage`: the aggregate produced by `getSessionUsage`. -/
structure SessionUsage where
  totalCost : ℚ
  entries : List SessionUsageEntry
deriving DecidableEq, Repr

/-- `TokenBreakdown`. -/
structure TokenBreakdown where
  input : Nat
  output : Nat
  cacheCreation : Nat
  cacheRead : Nat
deriving DecidableEq, Repr

/-- `SessionInfo`. -/
structure SessionInfo where
  cost : Option ℚ
  calculatedCost : Option ℚ
  officialCost : Option ℚ
  tokens : Option Nat
  tokenBreakdown : Option TokenBreakdown
  cacheHitRate : Option ℚ
  burnRate : Option ℚ
  isOutputEstimated : Bool
deriving DecidableEq, Repr

/-- The `cost` object of the Claude hook payload
(`hookData.cost.total_cost_usd`, `hookData.cost.total_duration_ms`). -/
structure HookCost where
  total_cost_usd : Option ℚ
  total_duration_ms : Option ℚ
deriving DecidableEq, Repr

/-- The part of `ClaudeHookData` consumed by `getSessionInfo`. -/
structure ClaudeHookData where
  cost : Option HookCost
deriving DecidableEq, Repr

/-- `SessionProvider.calculateTokenBreakdown`: fold-sum of the four token
fields over all entries, optional cache fields defaulting to 0. -/
def calculateTokenBreakdown (entries : List SessionUsageEntry) : TokenBreakdown :=
  entries.foldl
    (fun breakdown entry =>
      { input := breakdown.input + entry.usage.input_tokens
        output := breakdown.output + entry.usage.output_tokens
        cacheCreation :=
          breakdown.cacheCreation + (entry.usage.cache_creation_input_tokens.getD 0)
        cacheRead :=
          breakdown.cacheRead + (entry.usage.cache_read_input_tokens.getD 0) })
    { input := 0, output := 0, cacheCreation := 0, cacheRead := 0 }

/-- Insert into a sorted list (ascending). -/
def insertSorted (x : Int) : List Int → List Int
  | [] => [x]
  | y :: ys => if x ≤ y then x :: y :: ys else y :: insertSorted x ys

/-- `times.sort((a,b) => a-b)`: numeric ascending sort. -/
def sortTimes : List Int → List Int
  | [] => []
  | x :: xs => insertSorted x (sortTimes xs)

/-- `SessionProvider.calculateBurnRate`.
JS truthiness: `!cost || cost === 0` rejects a missing or zero cost;
`hookDurationMs && hookDurationMs > 0` takes the hook-duration branch exactly
when a strictly positive duration is provided.  Otherwise the entry-timestamp
fallback requires at least 2 entries and a full span of at least one minute. -/
def calculateBurnRate (cost : Option ℚ) (entries : List SessionUsageEntry)
    (hookDurationMs : Option ℚ) : Option ℚ :=
  if cost = none ∨ cost = some 0 then none
  else
    let c := cost.getD 0
    if 0 < hookDurationMs.getD 0 then some (c / (hookDurationMs.getD 0 / 3600000))
    else if entries.length < 2 then none
    else
      let times := sortTimes (entries.map (·.timestampMs))
      let durationMs : ℚ := ((times.getLast?.getD 0) - (times.head?.getD 0) : Int)
      if durationMs < 60000 then none
      else some (c / (durationMs / 3600000))

/-- `SessionProvider.calculateCacheHitRate`. -/
def calculateCacheHitRate (breakdown : TokenBreakdown) : Option ℚ :=
  let total := breakdown.input + breakdown.cacheCreation + breakdown.cacheRead
  if total = 0 then none
  else some ((breakdown.cacheRead : ℚ) / (total : ℚ) * 100)

/-- The all-null `SessionInfo` returned when no usage data is available. -/
def nullSessionInfo : SessionInfo :=
  { cost := none, calculatedCost := none, officialCost := none, tokens := none
    tokenBreakdown := none, cacheHitRate := none, burnRate := none
    isOutputEstimated := false }

/-- `SessionProvider.getSessionInfo`, with the I/O boundary
(`getSessionUsage`) abstracted into the `sessionUsage` argument.
`calculatedCost` is the (non-nullable) `sessionUsage.totalCost`, so the JS
`calculatedCost ?? hookDataCost` is `Option.or (some calculatedCost)`. -/
def getSessionInfo (sessionUsage : Option SessionUsage)
    (hookData : Option ClaudeHookData) : SessionInfo :=
  match sessionUsage with
  | none => nullSessionInfo
  | some u =>
    if u.entries = [] then nullSessionInfo
    else
      let tokenBreakdown := calculateTokenBreakdown u.entries
      let totalTokens := tokenBreakdown.input + tokenBreakdown.output +
        tokenBreakdown.cacheCreation + tokenBreakdown.cacheRead
      let calculatedCost := u.totalCost
      let hookDataCost := (hookData.bind (·.cost)).bind (·.total_cost_usd)
      let cost := (some calculatedCost).or hookDataCost
      let cacheHitRate := calculateCacheHitRate tokenBreakdown
      let burnRate := calculateBurnRate cost u.entries
        ((hookData.bind (·.cost)).bind (·.total_duration_ms))
      { cost := cost, calculatedCost := some calculatedCost
        officialCost := hookDataCost, tokens := some totalTokens
        tokenBreakdown := some tokenBreakdown, cacheHitRate := cacheHitRate
        burnRate := burnRate, isOutputEstimated := false }

/-- Modelled from the spec (§4.4, step 3): the raw burn-rate derivation the
spec prescribes, in the spec's priority order — first a sliding window over
the entries of the last 15 minutes (at least 2 entries, window span clamped
to at least one minute), then the full entry span (at least 2 entries, span
above one minute), and only as a last resort the assistant-reported duration
(rate = cost / duration-in-hours, only when the duration is positive). -/
def specRawBurnRate (cost : Option ℚ) (entries : List SessionUsageEntry)
    (hookDurationMs : Option ℚ) : Option ℚ :=
  match cost with
  | none => none
  | some c =>
    if c = 0 then none
    else
      let durationFallback : Option ℚ :=
        match hookDurationMs with
        | some d => if 0 < d then some (c / (d / 3600000)) else none
        | none => none
      let times := sortTimes (entries.map (·.timestampMs))
      match times.getLast? with
      | none => durationFallback
      | some latest =>
        let windowEntries :=
          entries.filter (fun e => latest - e.timestampMs ≤ 15 * 60 * 1000)
        if 2 ≤ windowEntries.length then
          let wtimes := sortTimes (windowEntries.map (·.timestampMs))
          let span : ℚ := ((wtimes.getLast?.getD 0) - (wtimes.head?.getD 0) : Int)
          let windowCost := windowEntries.foldl (fun acc e => acc + e.costUSD.getD 0) 0
          some (windowCost / (max span 60000 / 3600000))
        else if 2 ≤ entries.length then
          let span : ℚ := ((times.getLast?.getD 0) - (times.head?.getD 0) : Int)
          if 60000 < span then some (c / (span / 3600000)) else durationFallback
        else durationFallback

/-- Modelled from the spec (§4.4, step 4): one exponential-moving-average
step with α = 0.3 — the first sample passes through unsmoothed, later
samples blend `raw * 0.3 + previous * 0.7`. -/
def specSmooth (previousRate : Option ℚ) (raw : ℚ) : ℚ :=
  match previousRate with
  | none => raw
  | some r0 => raw * (3 / 10) + r0 * (7 / 10)

/-! ## Embedding of src/segments/omc.ts -/

/-- `MAX_TAIL_BYTES`: 512 KiB tail limit. -/
def MAX_TAIL_BYTES : Nat := 512 * 1024

/-- `MAX_AGENT_MAP_SIZE`: soft cap of the agent registry. -/
def MAX_AGENT_MAP_SIZE : Nat := 50

/-- `STALE_AGENT_THRESHOLD_MS`: 30 minutes. -/
def STALE_AGENT_THRESHOLD_MS : Int := 30 * 60 * 1000

/-- The record-opening byte `'{'` tested by `readTailContent`. -/
def openBrace : Char := Char.ofNat 123

/-- `needle` is a prefix of `hay` (character-wise). -/
def startsWithL : List Char → List Char → Bool
  | [], _ => true
  | _ :: _, [] => false
  | c :: cs, d :: ds => c = d && startsWithL cs ds

/-- First index at which `needle` occurs as a substring (JS `indexOf`). -/
def idxOfSub (needle : List Char) : List Char → Option Nat
  | [] => if needle.isEmpty then some 0 else none
  | c :: cs =>
    if startsWithL needle (c :: cs) then some 0
    else (idxOfSub needle cs).map (· + 1)

/-- JS `String.prototype.includes`. -/
def containsSub (hay needle : List Char) : Bool :=
  (idxOfSub needle hay).isSome

/-- JS whitespace (the ASCII part of `\s`, as used by `trim` and `\s*`). -/
def isJsSpace (c : Char) : Bool :=
  c = ' ' || c = '\t' || c = '\n' || c = '\r' ||
  c = Char.ofNat 11 || c = Char.ofNat 12

/-- JS `String.prototype.trim`. -/
def lcTrim (s : List Char) : List Char :=
  ((s.dropWhile isJsSpace).reverse.dropWhile isJsSpace).reverse

/-- Scan for the regex `open([^<]+)close` (as in `<task_id>([^<]+)</task_id>`):
try each start position in order; at a match of the opening tag take the
maximal run of non-`'<'` characters (the greedy `[^<]+`, necessarily maximal
because the closing tag starts with `'<'`), and require the closing tag right
after it; on failure resume at the next start position. -/
def extractTagGreedy (openT closeT : List Char) : List Char → Option (List Char)
  | [] => none
  | c :: cs =>
    if startsWithL openT (c :: cs) then
      let rest := (c :: cs).drop openT.length
      let cap := rest.takeWhile (fun ch => ch ≠ '<')
      if cap.isEmpty then extractTagGreedy openT closeT cs
      else if startsWithL closeT (rest.drop cap.length) then some cap
      else extractTagGreedy openT closeT cs
    else extractTagGreedy openT closeT cs

/-- Scan for the regex `open([\s\S]*?)close` (lazy body, as in
`<task-notification>([\s\S]*?)</task-notification>`): the first start
position where the opening tag matches and the closing tag occurs later
wins, and the body runs to the first occurrence of the closing tag. -/
def extractTagLazy (openT closeT : List Char) : List Char → Option (List Char)
  | [] => none
  | c :: cs =>
    if startsWithL openT (c :: cs) then
      let rest := (c :: cs).drop openT.length
      match idxOfSub closeT rest with
      | some i => some (rest.take i)
      | none => extractTagLazy openT closeT cs
    else extractTagLazy openT closeT cs

/-- A character of the JS class `[\w-]`. -/
def isWordDash (c : Char) : Bool :=
  c.isAlphanum || c = '_' || c = '-'

/-- Scan for the regex `agentId:\s*([\w-]+)` (the background-id extraction):
after a literal `agentId:` skip whitespace and take a nonempty run of
`[\w-]` characters; otherwise resume at the next start position. -/
def extractAgentId : List Char → Option (List Char)
  | [] => none
  | c :: cs =>
    if startsWithL "agentId:".toList (c :: cs) then
      let rest := (c :: cs).drop 8
      let idc := (rest.dropWhile isJsSpace).takeWhile isWordDash
      if idc.isEmpty then extractAgentId cs else some idc
    else extractAgentId cs

/-- An element of an array-shaped `content` value: a block with a `type`
tag and an optional `text` field. -/
structure TextBlock where
  type : String
  text : Option String
deriving DecidableEq, Repr

/-- A loosely-typed `content` value: a string, an array of text blocks, or
anything else (absent / other shapes). -/
inductive BlockContent where
  | str (s : String)
  | arr (blocks : List TextBlock)
  | absent
deriving DecidableEq, Repr

/-- Text extraction used by `parseTaskOutputResult` and the background-id
extraction: a string is itself; for an array, the `text` of the first
block with `type === 'text'`, defaulting to the empty string. -/
def contentFindText : BlockContent → String
  | .str s => s
  | .arr bs => ((bs.find? (fun c => c.type == "text")).bind (·.text)).getD ""
  | .absent => ""

/-- Text extraction used by `parseTaskNotification`: a string is itself;
for an array, the concatenation of every `type === 'text'` block's text
(`join('')`, missing text joining as the empty string). -/
def contentJoinText : BlockContent → String
  | .str s => s
  | .arr bs =>
    String.join (bs.map (fun c => if c.type == "text" then c.text.getD "" else ""))
  | .absent => ""

/-- `OmcProvider.parseTaskOutputResult`: extract `<task_id>` and `<status>`
tags from the result text. -/
def parseTaskOutputResult (content : BlockContent) : Option (String × String) :=
  let text := (contentFindText content).toList
  match extractTagGreedy "<task_id>".toList "</task_id>".toList text,
        extractTagGreedy "<status>".toList "</status>".toList text with
  | some tid, some st => some (String.mk tid, String.mk st)
  | _, _ => none

/-- `OmcProvider.parseTaskNotification`: extract a `<task-notification>`
body (lazily matched, rejected when empty) and from it the trimmed
`<task-id>` and `<status>` tags. -/
def parseTaskNotification (content : BlockContent) : Option (String × String) :=
  let text := (contentJoinText content).toList
  match extractTagLazy "<task-notification>".toList "</task-notification>".toList text with
  | none => none
  | some inner =>
    if inner.isEmpty then none
    else
      match extractTagGreedy "<task-id>".toList "</task-id>".toList inner,
            extractTagGreedy "<status>".toList "</status>".toList inner with
      | some tid, some st => some (String.mk (lcTrim tid), String.mk (lcTrim st))
      | _, _ => none

/-- ASCII lower-casing (JS `toLowerCase` on the statuses involved). -/
def lowerStr (s : String) : String :=
  String.mk (s.toList.map Char.toLower)

/-- `OmcProvider.isTerminalStatus`: case-insensitive membership in
`completed | failed | error | cancelled`. -/
def isTerminalStatus (status : String) : Bool :=
  ["completed", "failed", "error", "cancelled"].contains (lowerStr status)

/-- The two-state agent status. -/
inductive AgentStatus where
  | running
  | completed
deriving DecidableEq, Repr

instance : BEq AgentStatus := ⟨fun a b => decide (a = b)⟩

/-- `ActiveAgent`. -/
structure ActiveAgent where
  id : String
  type : String
  model : Option String
  description : Option String
  status : AgentStatus
  startTime : Int
  endTime : Option Int
deriving DecidableEq, Repr

/-- The agent registry: a JS `Map` from tool-invocation id to record,
modelled as an insertion-ordered association list with unique keys. -/
abbrev AgentMap := List (String × ActiveAgent)

/-- JS `Map.prototype.get`. -/
def mapGet {β : Type} (m : List (String × β)) (k : String) : Option β :=
  match m with
  | [] => none
  | (k', v) :: rest => if k' = k then some v else mapGet rest k

/-- JS `Map.prototype.set`: replace in place if the key exists, else append. -/
def mapSet {β : Type} (m : List (String × β)) (k : String) (v : β) :
    List (String × β) :=
  match m with
  | [] => [(k, v)]
  | (k', v') :: rest =>
    if k' = k then (k, v) :: rest else (k', v') :: mapSet rest k v

/-- JS `Map.prototype.delete`. -/
def mapDelete {β : Type} (m : List (String × β)) (k : String) :
    List (String × β) :=
  match m with
  | [] => []
  | (k', v') :: rest =>
    if k' = k then rest else (k', v') :: mapDelete rest k

/-- The `for (const [id, agent] of agentMap)` minimum scans of the eviction
block: the first record satisfying `p` with strictly smallest `startTime`
(`oldestTime` starts at `Infinity`, comparison is strict `<`). -/
def oldestWith (p : ActiveAgent → Bool) (m : AgentMap) : Option String :=
  (m.foldl
    (fun acc x =>
      match acc with
      | none => if p x.2 then some (x.1, x.2.startTime) else none
      | some (oid, t) =>
        if p x.2 && x.2.startTime < t then some (x.1, x.2.startTime)
        else some (oid, t))
    none).map (·.1)

/-- The eviction candidate: priority 1 the oldest completed record, else
priority 2 the oldest running record already past the staleness threshold. -/
def evictionCandidate (evictionNow : Int) (m : AgentMap) : Option String :=
  match oldestWith (fun a => a.status == .completed) m with
  | some oid => some oid
  | none =>
    oldestWith
      (fun a => a.status == .running &&
        decide (STALE_AGENT_THRESHOLD_MS < evictionNow - a.startTime)) m

/-- `OmcSkillInfo`. -/
structure OmcSkillInfo where
  name : Option String
  args : Option String
deriving DecidableEq, Repr

/-- The mutable state of one `parseTranscriptForSkillAndAgents` replay.
`overflowed` is ghost instrumentation (not present in the source): it is set
exactly when an insertion at or above the cap finds no evictable candidate
(the graceful-overflow branch), and is used only to state the capacity
invariant. -/
structure ReplayState where
  lastSkill : OmcSkillInfo
  agentMap : AgentMap
  backgroundAgentMap : List (String × String)
  overflowed : Bool
deriving DecidableEq, Repr

/-- The `input` object of a `Task`/`Skill` tool-use block. -/
structure TaskInput where
  subagent_type : Option String
  model : Option String
  description : Option String
  skill : Option String
  args : Option String
deriving DecidableEq, Repr

/-- One block of `entry.message.content`. -/
structure MsgBlock where
  type : String
  name : Option String
  id : Option String
  tool_use_id : Option String
  input : Option TaskInput
  content : BlockContent
  text : Option String
deriving DecidableEq, Repr

/-- `entry.message?.content`: an array of blocks, a bare string, or absent. -/
inductive MsgContent where
  | blocks (bs : List MsgBlock)
  | str (s : String)
  | absent
deriving DecidableEq, Repr

/-- One parsed JSON line of the transcript (lines that fail to parse are
skipped by the source and therefore simply absent from the entry list). -/
structure TranscriptEntry where
  timestamp : Option Int
  message : MsgContent
  content : BlockContent
deriving DecidableEq, Repr

/-- The bounded insertion of a freshly-launched agent: at or above the soft
cap first try to evict the candidate, otherwise allow graceful overflow. -/
def insertAgent (evictionNow : Int) (st : ReplayState) (blockId : String)
    (agentEntry : ActiveAgent) : ReplayState :=
  if MAX_AGENT_MAP_SIZE ≤ st.agentMap.length then
    match evictionCandidate evictionNow st.agentMap with
    | some oldestId =>
      { st with agentMap := mapSet (mapDelete st.agentMap oldestId) blockId agentEntry }
    | none =>
      { st with agentMap := mapSet st.agentMap blockId agentEntry, overflowed := true }
  else
    { st with agentMap := mapSet st.agentMap blockId agentEntry }

/-- The background-launch test on a tool-result content: a string containing
`Async agent launched`, or an array with a text block containing it. -/
def containsAsyncLaunch : BlockContent → Bool
  | .str s => containsSub s.toList "Async agent launched".toList
  | .arr bs =>
    bs.any (fun c =>
      c.type == "text" &&
        ((c.text.map (fun t => containsSub t.toList "Async agent launched".toList)).getD false))
  | .absent => false

/-- The shared background-completion step (used by both the TaskOutput path
and the task-notification path): through `backgroundAgentMap` resolve the
task id to the launching tool-use id and complete the record there if it is
still running. -/
def completeBackground (st : ReplayState) (taskId : String) (ts : Int) :
    ReplayState :=
  match mapGet st.backgroundAgentMap taskId with
  | some toolUseId =>
    match mapGet st.agentMap toolUseId with
    | some bgAgent =>
      if bgAgent.status == .running then
        let updated := { bgAgent with status := .completed, endTime := some ts }
        { st with agentMap := mapSet st.agentMap toolUseId updated }
      else st
    | none => st
  | none => st

/-- First section of the block loop: skill tracking (`Skill`/`proxy_Skill`
tool-use blocks with a truthy `input.skill`). -/
def skillStep (st : ReplayState) (b : MsgBlock) : ReplayState :=
  if b.type == "tool_use" && (b.name == some "Skill" || b.name == some "proxy_Skill") then
    match b.input.bind (·.skill) with
    | some skillName =>
      if skillName != "" then
        { st with lastSkill := { name := some skillName, args := b.input.bind (·.args) } }
      else st
    | none => st
  else st

/-- Second section of the block loop: agent launch (`Task`/`proxy_Task`
tool-use blocks with a truthy `id`), entering a running record through the
bounded insertion. -/
def launchStep (evictionNow ts : Int) (st : ReplayState) (b : MsgBlock) :
    ReplayState :=
  match b.id with
  | some bid =>
    if b.type == "tool_use" && bid != "" &&
        (b.name == some "Task" || b.name == some "proxy_Task") then
      insertAgent evictionNow st bid
        { id := bid
          type := (b.input.bind (·.subagent_type)).getD "unknown"
          model := b.input.bind (·.model)
          description := b.input.bind (·.description)
          status := .running
          startTime := ts
          endTime := none }
    else st
  | none => st

/-- Third section of the block loop: tool-result handling — background
hand-off registration or foreground completion for the launching id, then
the TaskOutput completion check (which fires only on the exact status
string `completed`). -/
def resultStep (ts : Int) (st : ReplayState) (b : MsgBlock) : ReplayState :=
  if b.type == "tool_result" then
    match b.tool_use_id with
    | some tuid =>
      if tuid != "" then
        let st :=
          match mapGet st.agentMap tuid with
          | some agent =>
            if containsAsyncLaunch b.content then
              match extractAgentId (contentFindText b.content).toList with
              | some bgId =>
                { st with backgroundAgentMap :=
                    mapSet st.backgroundAgentMap (String.mk bgId) tuid }
              | none => st
            else
              let updated := { agent with status := .completed, endTime := some ts }
              { st with agentMap := mapSet st.agentMap tuid updated }
          | none => st
        match parseTaskOutputResult b.content with
        | some (taskId, status) =>
          if status == "completed" then completeBackground st taskId ts else st
        | none => st
      else st
    | none => st
  else st

/-- Processing of one block of `entry.message.content` (the body of the
`for (const block of entry.message.content)` loop): the three sections in
source order. -/
def processBlock (evictionNow ts : Int) (st : ReplayState) (b : MsgBlock) :
    ReplayState :=
  resultStep ts (launchStep evictionNow ts (skillStep st b) b) b

/-- Convert `entry.message?.content` into a notification source value. -/
def msgContentToBlockContent : MsgContent → BlockContent
  | .blocks bs => .arr (bs.map (fun b => { type := b.type, text := b.text }))
  | .str s => .str s
  | .absent => .absent

/-- JS truthiness of a content value (`filter(Boolean)`): strings are truthy
unless empty, arrays are always truthy, absent values are falsy. -/
def truthyContent : BlockContent → Bool
  | .str s => s != ""
  | .arr _ => true
  | .absent => false

/-- `[entry.message?.content, entry.content].filter(Boolean)`. -/
def notifSources (e : TranscriptEntry) : List BlockContent :=
  [msgContentToBlockContent e.message, e.content].filter truthyContent

/-- Processing of one notification source: on a parsed task-notification
with a terminal status, complete the linked background agent. -/
def processNotificationSource (ts : Int) (st : ReplayState) (src : BlockContent) :
    ReplayState :=
  match parseTaskNotification src with
  | some (taskId, status) =>
    if isTerminalStatus status then completeBackground st taskId ts else st
  | none => st

/-- Processing of one parsed transcript line: the effective timestamp is the
entry's own timestamp, defaulting to the current time when missing or
invalid; then the block loop (when the message content is an array), then
the task-notification check over both content sources. -/
def processEntry (now : Int) (st : ReplayState) (e : TranscriptEntry) :
    ReplayState :=
  let ts := e.timestamp.getD now
  let st :=
    match e.message with
    | .blocks bs => bs.foldl (processBlock now ts) st
    | _ => st
  (notifSources e).foldl (processNotificationSource ts) st

/-- The state at the start of a replay. -/
def initialState : ReplayState :=
  { lastSkill := { name := none, args := none }, agentMap := []
    backgroundAgentMap := [], overflowed := false }

/-- The replay of a transcript: fold `processEntry` over the parsed lines. -/
def replayEntries (now : Int) (entries : List TranscriptEntry) : ReplayState :=
  entries.foldl (processEntry now) initialState

/-- The per-record stale check of the final sweep: a running record past the
30-minute threshold is synthetically completed with
`endTime = startTime + threshold`. -/
def sweepAgent (now : Int) (a : ActiveAgent) : ActiveAgent :=
  if a.status == .running && decide (STALE_AGENT_THRESHOLD_MS < now - a.startTime) then
    { a with status := .completed, endTime := some (a.startTime + STALE_AGENT_THRESHOLD_MS) }
  else a

/-- The stale sweep over the whole registry (runs after the entry loop). -/
def staleSweep (now : Int) (m : AgentMap) : AgentMap :=
  m.map (fun x => (x.1, sweepAgent now x.2))

/-- The agent registry produced by `parseTranscriptForSkillAndAgents` after
the full replay and the stale sweep. -/
def parseTranscriptAgentMap (now : Int) (entries : List TranscriptEntry) :
    AgentMap :=
  staleSweep now (replayEntries now entries).agentMap

/-- `OmcProvider.readTailContent`, on the file's bytes: read the last
`MAX_TAIL_BYTES` bytes (`startOffset = max(0, fileSize - MAX_TAIL_BYTES)`,
a truncated subtraction); when the read started mid-file and the tail does
not start with the record-opening byte, drop everything up to and including
the first newline — if the tail has a newline at all. -/
def readTailContent (file : List Char) : List Char :=
  let startOffset := file.length - MAX_TAIL_BYTES
  let content := file.drop startOffset
  if 0 < startOffset && !(startsWithL [openBrace] content) then
    match idxOfSub ['\n'] content with
    | some firstNewline => content.drop (firstNewline + 1)
    | none => content
  else content

/-- Modelled from the spec (§4.2): tail mode reads only the last
`MAX_TAIL_BYTES` bytes and discards the possibly-truncated first line of
that tail unless that line is verifiable as complete by starting with the
record-opening byte; nothing is discarded when the read starts at offset 0.
When the tail contains no newline, its first line is the whole tail, so the
whole tail is discarded. -/
def specTailRead (file : List Char) : List Char :=
  let startOffset := file.length - MAX_TAIL_BYTES
  let content := file.drop startOffset
  if 0 < startOffset && !(startsWithL [openBrace] content) then
    match idxOfSub ['\n'] content with
    | some firstNewline => content.drop (firstNewline + 1)
    | none => []
  else content

/-! ## Concrete transcripts and helper data used by witnesses and counterexamples -/
/-- Two usage entries two hours apart (used as a concrete burn-rate input). -/
def twoHourEntries : List SessionUsageEntry :=
  [ { timestampMs := 0, usage := ⟨0, 0, none, none⟩, costUSD := some (1/2) },
    { timestampMs := 7200000, usage := ⟨0, 0, none, none⟩, costUSD := some (1/2) } ]

/-- A transcript line launching agent `t1` via a `Task` tool-use block. -/
def launchEntry : TranscriptEntry where
  timestamp := some 0
  message := .blocks
    [{ type := "tool_use", name := some "Task", id := some "t1", tool_use_id := none,
       input := some { subagent_type := some "oh-my-claudecode:executor",
                       model := some "sonnet", description := some "do stuff",
                       skill := none, args := none },
       content := .absent, text := none }]
  content := .absent

/-- The async hand-off tool-result for `t1`, carrying background id `bg-1_a`. -/
def handoffEntry : TranscriptEntry where
  timestamp := some 1000
  message := .blocks
    [{ type := "tool_result", name := none, id := none, tool_use_id := some "t1",
       input := none,
       content := .str "Async agent launched in background. agentId: bg-1_a",
       text := none }]
  content := .absent

/-- A TaskOutput tool-result reporting terminal status `failed` for `bg-1_a`. -/
def failedOutputEntry : TranscriptEntry where
  timestamp := some 2000
  message := .blocks
    [{ type := "tool_result", name := none, id := none, tool_use_id := some "x9",
       input := none,
       content := .str "<task_id>bg-1_a</task_id><status>failed</status>",
       text := none }]
  content := .absent

/-- The running record that the launch of `t1` creates. -/
def runningT1 : ActiveAgent :=
  { id := "t1", type := "oh-my-claudecode:executor", model := some "sonnet",
    description := some "do stuff", status := .running, startTime := 0, endTime := none }

/-- A file one byte longer than the tail limit, with no newline and no record-opening byte. -/
def tailFile : List Char := List.replicate (MAX_TAIL_BYTES + 1) 'a'

/-- A replay state with one running agent `t1` linked to background id `bg1`. -/
def notifState : ReplayState :=
  { lastSkill := { name := none, args := none }, agentMap := [("t1", runningT1)],
    backgroundAgentMap := [("bg1", "t1")], overflowed := false }

/-- The capacity invariant: unless a graceful overflow has happened (ghost
flag set), the registry is within the soft cap. -/
def sizeOk (st : ReplayState) : Prop :=
  st.overflowed = false → st.agentMap.length ≤ MAX_AGENT_MAP_SIZE

/-! ## Association-list lemmas for the JS Map model -/
lemma mapGet_mapSet_self {β : Type} (m : List (String × β)) (k : String) (v : β) :
    mapGet (mapSet m k v) k = some v := by
  induction m with
  | nil => simp [mapSet, mapGet]
  | cons x rest ih =>
    by_cases h : x.1 = k
    · simp [mapSet, mapGet, h]
    · simp [mapSet, mapGet, h, ih]

lemma mapGet_mapSet_ne {β : Type} (m : List (String × β)) (k k' : String) (v : β)
    (h : k ≠ k') : mapGet (mapSet m k v) k' = mapGet m k' := by
  induction m with
  | nil => simp [mapSet, mapGet, h]
  | cons x rest ih =>
    by_cases hx : x.1 = k
    · simp [mapSet, mapGet, hx, h]
    · simp [mapSet, mapGet, hx, ih]

lemma mapGet_staleSweep (now : Int) (m : AgentMap) (id : String) :
    mapGet (staleSweep now m) id = (mapGet m id).map (sweepAgent now) := by
  induction m with
  | nil => simp [staleSweep, mapGet]
  | cons x rest ih =>
    by_cases h : x.1 = id
    · simp [staleSweep, mapGet, h]
    · simp only [staleSweep, List.map] at ih ⊢
      simp [mapGet, h, ih]

lemma agentStatus_beq_true (a b : AgentStatus) : (a == b) = true ↔ a = b := by
  cases a <;> cases b <;> simp [BEq.beq]

/-! ## Session theorems (C7, C8, C3, C1, C2) -/

/-- Claim C7 (confirmed): for every token breakdown, `calculateCacheHitRate`
is `none` exactly when `input + cacheCreation + cacheRead = 0`, and otherwise
equals `cacheRead / (input + cacheCreation + cacheRead) * 100`. -/
theorem cacheHitRate_spec (b : TokenBreakdown) :
    (calculateCacheHitRate b = none ↔ b.input + b.cacheCreation + b.cacheRead = 0) ∧
    (b.input + b.cacheCreation + b.cacheRead ≠ 0 →
      calculateCacheHitRate b =
        some ((b.cacheRead : ℚ) / ((b.input : ℚ) + (b.cacheCreation : ℚ) + (b.cacheRead : ℚ)) * 100)) := by
  unfold calculateCacheHitRate
  constructor
  · constructor
    · intro h
      by_cases ht : b.input + b.cacheCreation + b.cacheRead = 0
      · exact ht
      · simp [ht] at h
    · intro ht
      simp [ht]
  · intro ht
    simp only [ht, if_false]
    push_cast
    rfl

/-- Witness for C7: the non-null case evaluated at the breakdown
(100, 7, 200, 50), where the rate is 50/350*100 = 100/7. -/
theorem cacheHitRate_witness :
    (100 + 200 + 50 ≠ 0) ∧ calculateCacheHitRate ⟨100, 7, 200, 50⟩ = some (100 / 7) := by
  refine ⟨by decide, ?_⟩
  have h := (cacheHitRate_spec ⟨100, 7, 200, 50⟩).2 (by decide)
  rw [h]
  norm_num

/-- Claim C8 (confirmed): when no session usage could be read, or the parsed
entry list is empty, `getSessionInfo` returns a `SessionInfo` whose metric
fields — cost, calculatedCost, officialCost, tokens, tokenBreakdown,
cacheHitRate, burnRate — are all null. -/
theorem getSessionInfo_no_data (u : SessionUsage) (hook : Option ClaudeHookData) :
    ((getSessionInfo none hook).cost = none ∧
     (getSessionInfo none hook).calculatedCost = none ∧
     (getSessionInfo none hook).officialCost = none ∧
     (getSessionInfo none hook).tokens = none ∧
     (getSessionInfo none hook).tokenBreakdown = none ∧
     (getSessionInfo none hook).cacheHitRate = none ∧
     (getSessionInfo none hook).burnRate = none) ∧
    (u.entries = [] →
      (getSessionInfo (some u) hook).cost = none ∧
      (getSessionInfo (some u) hook).calculatedCost = none ∧
      (getSessionInfo (some u) hook).officialCost = none ∧
      (getSessionInfo (some u) hook).tokens = none ∧
      (getSessionInfo (some u) hook).tokenBreakdown = none ∧
      (getSessionInfo (some u) hook).cacheHitRate = none ∧
      (getSessionInfo (some u) hook).burnRate = none) := by
  constructor
  · exact ⟨rfl, rfl, rfl, rfl, rfl, rfl, rfl⟩
  · intro h
    simp [getSessionInfo, h, nullSessionInfo]

/-- Witness for C8 at the concrete empty usage record. -/
theorem getSessionInfo_no_data_witness :
    (⟨0, []⟩ : SessionUsage).entries = [] ∧
    (getSessionInfo (some ⟨0, []⟩) none).cost = none :=
  ⟨rfl, ((getSessionInfo_no_data ⟨0, []⟩ none).2 rfl).1⟩

/-- Counterexample to claim C3: with no entries parsed and an
externally-reported official cost of 5, the claim says `cost` falls back to
the official cost (5), but `getSessionInfo` returns `cost = none`. -/
theorem cost_fallback_counterexample :
    (((some (⟨some ⟨some 5, none⟩⟩ : ClaudeHookData)).bind ClaudeHookData.cost).bind
        HookCost.total_cost_usd = some 5) ∧
    (getSessionInfo none (some ⟨some ⟨some 5, none⟩⟩)).cost = none ∧
    (none : Option ℚ) ≠ some 5 :=
  ⟨rfl, rfl, by decide⟩

/-- Claim C3 (corrected): `cost` always equals `calculatedCost` when entries
were parsed; when no entries were parsed, `cost` is null — `officialCost` is
never used as the cost value (the `??` fallback is dead because
`calculatedCost` is non-nullable). -/
theorem cost_prefers_calculated (u : SessionUsage) (hook : Option ClaudeHookData) :
    (u.entries ≠ [] →
      (getSessionInfo (some u) hook).cost = some u.totalCost ∧
      (getSessionInfo (some u) hook).calculatedCost = some u.totalCost) ∧
    (u.entries = [] → (getSessionInfo (some u) hook).cost = none) ∧
    (getSessionInfo none hook).cost = none := by
  refine ⟨?_, ?_, rfl⟩
  · intro h
    simp [getSessionInfo, h, Option.or]
  · intro h
    simp [getSessionInfo, h, nullSessionInfo]

/-- Witness for C3 (amended) at a one-entry usage record with total cost 3. -/
theorem cost_prefers_calculated_witness :
    (⟨3, [⟨0, ⟨1, 1, none, none⟩, some 3⟩]⟩ : SessionUsage).entries ≠ [] ∧
    (getSessionInfo (some ⟨3, [⟨0, ⟨1, 1, none, none⟩, some 3⟩]⟩) none).cost = some 3 :=
  ⟨by decide, ((cost_prefers_calculated ⟨3, [⟨0, ⟨1, 1, none, none⟩, some 3⟩]⟩ none).1 (by decide)).1⟩

/-- Counterexample to claim C1: with cost 1, two entries two hours apart and
a reported duration of one hour, the spec's priority order (window, then
full span, then duration) yields 0.5 USD/h, but `calculateBurnRate` prefers
the reported duration and yields 1 USD/h. -/
theorem burnRate_priority_counterexample :
    specRawBurnRate (some 1) twoHourEntries (some 3600000) = some (1/2) ∧
    calculateBurnRate (some 1) twoHourEntries (some 3600000) = some 1 ∧
    (some ((1 : ℚ)/2) : Option ℚ) ≠ some 1 := by
  refine ⟨?_, ?_, by norm_num⟩
  · simp only [specRawBurnRate, twoHourEntries, sortTimes, insertSorted]
    norm_num
  · simp only [calculateBurnRate]
    norm_num
    exact fun h => by cases h

/-- Claim C1 (corrected): `calculateBurnRate` returns null for a missing or
zero cost; otherwise it prefers the hook-reported duration first
(rate = cost/(duration in hours) whenever duration > 0), and only falls back
to the full entry-timestamp span (at least 2 entries and a span of at least
one minute); there is no 15-minute sliding-window path at all. -/
theorem burnRate_priority_amended (c : ℚ) (entries : List SessionUsageEntry) (d : Option ℚ) :
    (calculateBurnRate none entries d = none) ∧
    (calculateBurnRate (some 0) entries d = none) ∧
    (c ≠ 0 → 0 < d.getD 0 →
      calculateBurnRate (some c) entries d = some (c / (d.getD 0 / 3600000))) ∧
    (c ≠ 0 → ¬ 0 < d.getD 0 → entries.length < 2 →
      calculateBurnRate (some c) entries d = none) ∧
    (c ≠ 0 → ¬ 0 < d.getD 0 → 2 ≤ entries.length →
      ((((sortTimes (entries.map (·.timestampMs))).getLast?.getD 0 -
          (sortTimes (entries.map (·.timestampMs))).head?.getD 0 : Int) : ℚ) < 60000 →
        calculateBurnRate (some c) entries d = none) ∧
      (60000 ≤ (((sortTimes (entries.map (·.timestampMs))).getLast?.getD 0 -
          (sortTimes (entries.map (·.timestampMs))).head?.getD 0 : Int) : ℚ) →
        calculateBurnRate (some c) entries d =
          some (c / ((((sortTimes (entries.map (·.timestampMs))).getLast?.getD 0 -
            (sortTimes (entries.map (·.timestampMs))).head?.getD 0 : Int) : ℚ) / 3600000)))) := by
  refine ⟨rfl, by simp [calculateBurnRate], ?_, ?_, ?_⟩
  · intro hc hd
    simp [calculateBurnRate, hc, hd]
  · intro hc hd hlen
    simp [calculateBurnRate, hc, hd, hlen]
  · intro hc hd hlen
    constructor
    · intro hspan
      push_cast at hspan
      simp [calculateBurnRate, hc, hd, Nat.not_lt.mpr hlen, hspan]
    · intro hspan
      push_cast at hspan
      simp [calculateBurnRate, hc, hd, Nat.not_lt.mpr hlen, not_lt.mpr hspan]

/-- Witness for C1 (amended): the duration branch at cost 1 and one hour. -/
theorem burnRate_priority_witness :
    (1 : ℚ) ≠ 0 ∧ 0 < (some (3600000 : ℚ)).getD 0 ∧
    calculateBurnRate (some 1) [] (some 3600000) =
      some (1 / ((some (3600000 : ℚ)).getD 0 / 3600000)) :=
  ⟨by norm_num, by norm_num [Option.getD],
    (burnRate_priority_amended 1 [] (some 3600000)).2.2.1 (by norm_num) (by norm_num [Option.getD])⟩

/-- Counterexample to claim C2: two consecutive calls produce raw rates
R0 = 1 and R1 = 2; the claim predicts the second output 0.3*2 + 0.7*1 = 1.3,
but the (stateless) code outputs the raw rate 2. -/
theorem burnRate_smoothing_counterexample :
    calculateBurnRate (some 1) [] (some 3600000) = some 1 ∧
    calculateBurnRate (some 2) [] (some 3600000) = some 2 ∧
    specSmooth (some 1) 2 = 13/10 ∧
    (some (2 : ℚ) : Option ℚ) ≠ some (13/10) := by
  refine ⟨?_, ?_, ?_, by norm_num⟩
  · simp only [calculateBurnRate]
    norm_num
    exact fun h => by cases h
  · simp only [calculateBurnRate]
    norm_num
    exact fun h => by cases h
  · simp only [specSmooth]
    norm_num

/-- Claim C2 (corrected): the burn-rate computation is stateless — every
produced rate is the raw rate of the call's own arguments (the duration form
or the entry-span form), with no EMA blend against any previous rate; the
first-sample-equals-raw-rate property holds trivially. -/
theorem burnRate_stateless (c : ℚ) (entries : List SessionUsageEntry) (d : Option ℚ) (r : ℚ) :
    calculateBurnRate (some c) entries d = some r →
    specSmooth none r = r ∧
    ((0 < d.getD 0 ∧ r = c / (d.getD 0 / 3600000)) ∨
     (¬ 0 < d.getD 0 ∧ 2 ≤ entries.length ∧
      r = c / (((((sortTimes (entries.map (·.timestampMs))).getLast?.getD 0 : Int) : ℚ) -
        (((sortTimes (entries.map (·.timestampMs))).head?.getD 0 : Int) : ℚ)) / 3600000))) := by
  intro h
  refine ⟨rfl, ?_⟩
  by_cases hd : 0 < d.getD 0
  · left
    refine ⟨hd, ?_⟩
    by_cases hc : c = 0
    · simp [calculateBurnRate, hc] at h
    · simp [calculateBurnRate, hc, hd] at h
      exact h.symm
  · right
    by_cases hc : c = 0
    · simp [calculateBurnRate, hc] at h
    · by_cases hlen : entries.length < 2
      · simp [calculateBurnRate, hc, hd, hlen] at h
      · refine ⟨hd, Nat.not_lt.mp hlen, ?_⟩
        by_cases hspan : (((sortTimes (entries.map (·.timestampMs))).getLast?.getD 0 : Int) : ℚ) -
            (((sortTimes (entries.map (·.timestampMs))).head?.getD 0 : Int) : ℚ) < 60000
        · simp [calculateBurnRate, hc, hd, hlen, hspan] at h
        · simp [calculateBurnRate, hc, hd, hlen, hspan] at h
          exact h.symm

/-- Witness for C2 (amended) at cost 1 with a one-hour duration. -/
theorem burnRate_stateless_witness :
    calculateBurnRate (some 1) [] (some 3600000) = some 1 ∧
    specSmooth none 1 = 1 := by
  have h : calculateBurnRate (some 1) [] (some 3600000) = some 1 := by
    simp only [calculateBurnRate]
    norm_num
    exact fun h => by cases h
  exact ⟨h, (burnRate_stateless 1 [] (some 3600000) 1 h).1⟩

/-! ## Tail-reader theorems (C9) -/

lemma idxOfSub_newline_replicate (n : Nat) :
    idxOfSub ['\n'] (List.replicate n 'a') = none := by
  induction n with
  | zero => simp [idxOfSub]
  | succ m ih =>
    rw [List.replicate_succ]
    simp [idxOfSub, startsWithL, ih]

lemma startsWith_brace_replicate (n : Nat) (h : 0 < n) :
    startsWithL [openBrace] (List.replicate n 'a') = false := by
  cases n with
  | zero => omega
  | succ m =>
    rw [List.replicate_succ]
    simp [startsWithL, openBrace]

/-- Counterexample to claim C9: for a file one byte over the limit whose
tail has no newline and does not start with the record-opening byte, the
claim (spec model) discards the whole unverifiable first line, but
`readTailContent` keeps the tail unchanged. -/
theorem readTail_counterexample :
    MAX_TAIL_BYTES < tailFile.length ∧
    readTailContent tailFile = List.replicate MAX_TAIL_BYTES 'a' ∧
    specTailRead tailFile = [] ∧
    readTailContent tailFile ≠ specTailRead tailFile := by
  have hlen : tailFile.length = MAX_TAIL_BYTES + 1 := by
    simp [tailFile]
  have hoff : tailFile.length - MAX_TAIL_BYTES = 1 := by omega
  have hdrop : tailFile.drop 1 = List.replicate MAX_TAIL_BYTES 'a' := by
    simp [tailFile, List.drop_replicate]
  have hb : startsWithL [openBrace] (List.replicate MAX_TAIL_BYTES 'a') = false :=
    startsWith_brace_replicate _ (by decide)
  have hn := idxOfSub_newline_replicate MAX_TAIL_BYTES
  have hcode : readTailContent tailFile = List.replicate MAX_TAIL_BYTES 'a' := by
    simp only [readTailContent, hoff, hdrop, hb, hn]
    simp
  have hspec : specTailRead tailFile = [] := by
    simp only [specTailRead, hoff, hdrop, hb, hn]
    simp
  refine ⟨by omega, hcode, hspec, ?_⟩
  rw [hcode, hspec]
  intro h
  have := congrArg List.length h
  simp at this
  exact absurd this (by decide)

/-- Claim C9 (corrected): tail mode reads only the last `MAX_TAIL_BYTES`
bytes; a tail starting with the record-opening byte is kept whole; otherwise
everything through the first newline is discarded — but when the tail
contains no newline at all the (possibly truncated) line is kept, not
discarded; nothing is discarded when the read starts at offset 0. -/
theorem readTail_amended (file : List Char) :
    (MAX_TAIL_BYTES < file.length →
      (file.drop (file.length - MAX_TAIL_BYTES)).length = MAX_TAIL_BYTES ∧
      (startsWithL [openBrace] (file.drop (file.length - MAX_TAIL_BYTES)) = true →
        readTailContent file = file.drop (file.length - MAX_TAIL_BYTES)) ∧
      (startsWithL [openBrace] (file.drop (file.length - MAX_TAIL_BYTES)) = false →
        (∀ i, idxOfSub ['\n'] (file.drop (file.length - MAX_TAIL_BYTES)) = some i →
          readTailContent file = (file.drop (file.length - MAX_TAIL_BYTES)).drop (i + 1)) ∧
        (idxOfSub ['\n'] (file.drop (file.length - MAX_TAIL_BYTES)) = none →
          readTailContent file = file.drop (file.length - MAX_TAIL_BYTES)))) ∧
    (file.length ≤ MAX_TAIL_BYTES → readTailContent file = file) := by
  constructor
  · intro hlen
    refine ⟨?_, ?_, ?_⟩
    · simp [List.length_drop]
      omega
    · intro hb
      simp only [readTailContent, hb]
      simp
    · intro hb
      constructor
      · intro i hi
        simp only [readTailContent, hb, hi]
        simp
        omega
      · intro hi
        simp only [readTailContent, hb, hi]
        simp
  · intro hlen
    have h0 : file.length - MAX_TAIL_BYTES = 0 := by omega
    simp only [readTailContent, h0]
    simp

/-- Witness for C9 (amended): the offset-0 branch at the empty file. -/
theorem readTail_amended_witness :
    ([] : List Char).length ≤ MAX_TAIL_BYTES ∧ readTailContent [] = [] :=
  ⟨by decide, (readTail_amended []).2 (by decide)⟩

/-! ## Stale-sweep theorems (C6) -/

/-- Claim C6 (confirmed): after the full replay, every record still running
whose start is more than the 30-minute threshold before the replay's current
time is completed with `endTime = startTime + threshold`; records younger
than the threshold remain running (unchanged). -/
theorem staleSweep_spec (now : Int) (entries : List TranscriptEntry) (id : String)
    (a : ActiveAgent) :
    mapGet (replayEntries now entries).agentMap id = some a →
    a.status = .running →
    (STALE_AGENT_THRESHOLD_MS < now - a.startTime →
      mapGet (parseTranscriptAgentMap now entries) id =
        some { a with status := .completed,
                      endTime := some (a.startTime + STALE_AGENT_THRESHOLD_MS) }) ∧
    (now - a.startTime < STALE_AGENT_THRESHOLD_MS →
      mapGet (parseTranscriptAgentMap now entries) id = some a) := by
  intro hget hrun
  unfold parseTranscriptAgentMap
  rw [mapGet_staleSweep, hget]
  constructor
  · intro hstale
    simp [sweepAgent, hrun, hstale]
  · intro hfresh
    have : ¬ STALE_AGENT_THRESHOLD_MS < now - a.startTime := by omega
    simp [sweepAgent, hrun, this]

/-- Witness for C6: a lone launch replayed with a synthetic now 31 minutes
later yields a completed record with endTime = startTime + 30 min. -/
theorem staleSweep_spec_witness :
    mapGet (replayEntries 1860000 [launchEntry]).agentMap "t1" = some runningT1 ∧
    runningT1.status = .running ∧
    STALE_AGENT_THRESHOLD_MS < 1860000 - runningT1.startTime ∧
    mapGet (parseTranscriptAgentMap 1860000 [launchEntry]) "t1" =
      some { runningT1 with status := .completed,
                            endTime := some (runningT1.startTime + STALE_AGENT_THRESHOLD_MS) } := by
  refine ⟨by decide, by decide, by decide, ?_⟩
  exact (staleSweep_spec 1860000 [launchEntry] "t1" runningT1 (by decide) (by decide)).1 (by decide)

/-! ## Terminal-status theorems (C4) -/

/-- Counterexample to claim C4: replaying launch, async hand-off (background
id `bg-1_a`), then a task-output tool-result with terminal status `failed`
for that id leaves the linked record running — the task-output path fires
only on the exact status string `completed`, not on every terminal status. -/
theorem terminal_status_counterexample :
    isTerminalStatus "failed" = true ∧
    parseTaskOutputResult (.str "<task_id>bg-1_a</task_id><status>failed</status>") =
      some ("bg-1_a", "failed") ∧
    mapGet (replayEntries 5000 [launchEntry, handoffEntry, failedOutputEntry]).backgroundAgentMap
      "bg-1_a" = some "t1" ∧
    mapGet (replayEntries 5000 [launchEntry, handoffEntry, failedOutputEntry]).agentMap "t1" =
      some runningT1 ∧
    runningT1.status = .running :=
  ⟨by decide, by decide, by decide, by decide, by decide⟩

lemma completeBackground_hit (st : ReplayState) (taskId : String) (ts : Int)
    (tuid : String) (agent : ActiveAgent)
    (hbg : mapGet st.backgroundAgentMap taskId = some tuid)
    (hagent : mapGet st.agentMap tuid = some agent)
    (hrun : agent.status = .running) :
    mapGet (completeBackground st taskId ts).agentMap tuid =
      some { agent with status := .completed, endTime := some ts } := by
  simp only [completeBackground, hbg, hagent, hrun]
  simp [agentStatus_beq_true, mapGet_mapSet_self]

lemma skillStep_result (st : ReplayState) (b : MsgBlock) (h : b.type = "tool_result") :
    skillStep st b = st := by
  simp [skillStep, h]

lemma launchStep_result (evictionNow ts : Int) (st : ReplayState) (b : MsgBlock)
    (h : b.type = "tool_result") : launchStep evictionNow ts st b = st := by
  unfold launchStep
  cases b.id <;> simp [h]

/-- Claim C4 (corrected): a task-notification carrying a linked background
id and a terminal status (case-insensitive `completed|failed|error|cancelled`)
completes the still-running linked record with `endTime` = the record's
timestamp; a task-output tool-result completes it only when its status is
exactly the string `completed` — on any other status the block leaves the
state unchanged. -/
theorem terminal_status_amended (now ts : Int) (st : ReplayState) :
    (∀ (src : BlockContent) (tid stt tuid : String) (agent : ActiveAgent),
      parseTaskNotification src = some (tid, stt) →
      isTerminalStatus stt = true →
      mapGet st.backgroundAgentMap tid = some tuid →
      mapGet st.agentMap tuid = some agent →
      agent.status = .running →
      mapGet (processNotificationSource ts st src).agentMap tuid =
        some { agent with status := .completed, endTime := some ts }) ∧
    (∀ (b : MsgBlock) (tuid0 tid tuid : String) (agent : ActiveAgent),
      b.type = "tool_result" →
      b.tool_use_id = some tuid0 →
      tuid0 ≠ "" →
      mapGet st.agentMap tuid0 = none →
      parseTaskOutputResult b.content = some (tid, "completed") →
      mapGet st.backgroundAgentMap tid = some tuid →
      mapGet st.agentMap tuid = some agent →
      agent.status = .running →
      mapGet (processBlock now ts st b).agentMap tuid =
        some { agent with status := .completed, endTime := some ts }) ∧
    (∀ (b : MsgBlock) (tuid0 tid stt : String),
      b.type = "tool_result" →
      b.tool_use_id = some tuid0 →
      tuid0 ≠ "" →
      mapGet st.agentMap tuid0 = none →
      parseTaskOutputResult b.content = some (tid, stt) →
      stt ≠ "completed" →
      processBlock now ts st b = st) := by
  refine ⟨?_, ?_, ?_⟩
  · intro src tid stt tuid agent hsrc hterm hbg hagent hrun
    simp only [processNotificationSource, hsrc, hterm, if_true]
    exact completeBackground_hit st tid ts tuid agent hbg hagent hrun
  · intro b tuid0 tid tuid agent htype htuid hne hmiss hout hbg hagent hrun
    have hresult := completeBackground_hit st tid ts tuid agent hbg hagent hrun
    rw [processBlock, skillStep_result st b htype, launchStep_result now ts st b htype]
    simp [resultStep, htype, htuid, hmiss, hout, hne, bne_iff_ne, hresult]
  · intro b tuid0 tid stt htype htuid hne hmiss hout hstt
    rw [processBlock, skillStep_result st b htype, launchStep_result now ts st b htype]
    simp [resultStep, htype, htuid, hmiss, hout, hne, hstt, bne_iff_ne]


/-- Witness for C4 (amended): a `Failed` task-notification completes the
linked running agent of `notifState` at timestamp 7. -/
theorem terminal_status_witness :
    parseTaskNotification
        (.str "<task-notification><task-id>bg1</task-id><status>Failed</status></task-notification>") =
      some ("bg1", "Failed") ∧
    isTerminalStatus "Failed" = true ∧
    mapGet notifState.backgroundAgentMap "bg1" = some "t1" ∧
    mapGet notifState.agentMap "t1" = some runningT1 ∧
    runningT1.status = .running ∧
    mapGet (processNotificationSource 7 notifState
        (.str "<task-notification><task-id>bg1</task-id><status>Failed</status></task-notification>")).agentMap
      "t1" = some { runningT1 with status := .completed, endTime := some 7 } := by
  refine ⟨by decide, by decide, by decide, by decide, by decide, ?_⟩
  exact (terminal_status_amended 0 7 notifState).1 _ "bg1" "Failed" "t1" runningT1
    (by decide) (by decide) (by decide) (by decide) (by decide)

/-! ## Status-monotonicity theorems (C10) -/

lemma completeBackground_mono (st : ReplayState) (taskId : String) (ts : Int)
    (id : String) (a : ActiveAgent) (hget : mapGet st.agentMap id = some a) :
    ∃ a', mapGet (completeBackground st taskId ts).agentMap id = some a' ∧
      (a' = a ∨ (a.status = .running ∧
        a' = { a with status := .completed, endTime := some ts })) := by
  unfold completeBackground
  cases hbg : mapGet st.backgroundAgentMap taskId with
  | none => simp only [hbg]; exact ⟨a, hget, Or.inl rfl⟩
  | some tuid =>
    simp only [hbg]
    cases hagent : mapGet st.agentMap tuid with
    | none => simp only [hagent]; exact ⟨a, hget, Or.inl rfl⟩
    | some bgAgent =>
      simp only [hagent]
      by_cases hrun : (bgAgent.status == AgentStatus.running) = true
      · simp only [hrun, if_true]
        by_cases hid : tuid = id
        · subst hid
          rw [hagent] at hget
          cases hget
          refine ⟨_, mapGet_mapSet_self _ _ _, Or.inr ⟨?_, rfl⟩⟩
          exact (agentStatus_beq_true _ _).mp hrun
        · exact ⟨a, by rw [mapGet_mapSet_ne _ _ _ _ hid]; exact hget, Or.inl rfl⟩
      · simp only [hrun, if_false]
        exact ⟨a, hget, Or.inl rfl⟩

lemma mono_chain (a a1 a' : ActiveAgent) (ts : Int)
    (h1 : a1 = a ∨ a1 = { a with status := .completed, endTime := some ts })
    (h2 : a' = a1 ∨ (a1.status = .running ∧
      a' = { a1 with status := .completed, endTime := some ts })) :
    a' = a ∨ a' = { a with status := .completed, endTime := some ts } := by
  rcases h1 with rfl | rfl
  · rcases h2 with rfl | ⟨_, rfl⟩
    · exact Or.inl rfl
    · exact Or.inr rfl
  · rcases h2 with rfl | ⟨hr, rfl⟩
    · exact Or.inr rfl
    · simp at hr

/-- Claim C10 (confirmed): each replay event — tool-result processing,
task-notification processing, and the stale sweep — either leaves a tracked
record unchanged or moves it to `completed`; a record observed `completed`
is never returned to `running` by any of these events, so the only status
transition an event performs is running → completed. -/
theorem status_monotone (now ts : Int) (st : ReplayState) :
    (∀ (b : MsgBlock) (id : String) (a : ActiveAgent),
      b.type = "tool_result" →
      mapGet st.agentMap id = some a →
      ∃ a', mapGet (processBlock now ts st b).agentMap id = some a' ∧
        (a' = a ∨ a' = { a with status := .completed, endTime := some ts })) ∧
    (∀ (src : BlockContent) (id : String) (a : ActiveAgent),
      mapGet st.agentMap id = some a →
      ∃ a', mapGet (processNotificationSource ts st src).agentMap id = some a' ∧
        (a' = a ∨ (a.status = .running ∧
          a' = { a with status := .completed, endTime := some ts }))) ∧
    (∀ (m : AgentMap) (id : String) (a : ActiveAgent),
      mapGet m id = some a →
      mapGet (staleSweep now m) id = some (sweepAgent now a) ∧
      (sweepAgent now a = a ∨ (a.status = .running ∧ sweepAgent now a =
        { a with status := .completed,
                 endTime := some (a.startTime + STALE_AGENT_THRESHOLD_MS) }))) := by
  refine ⟨?_, ?_, ?_⟩
  · intro b id a htype hget
    have hstage2 :
        ∀ (st1 : ReplayState) (a1 : ActiveAgent),
          mapGet st1.agentMap id = some a1 →
          (a1 = a ∨ a1 = { a with status := .completed, endTime := some ts }) →
          ∃ a', mapGet
              (match parseTaskOutputResult b.content with
               | some (taskId, status) =>
                 if status == "completed" then completeBackground st1 taskId ts else st1
               | none => st1).agentMap id = some a' ∧
            (a' = a ∨ a' = { a with status := .completed, endTime := some ts }) := by
      intro st1 a1 hget1 hcase
      cases hout : parseTaskOutputResult b.content with
      | none => exact ⟨a1, hget1, mono_chain a a1 a1 ts hcase (Or.inl rfl)⟩
      | some p =>
        by_cases hstt : (p.2 == "completed") = true
        · obtain ⟨a', ha', hd⟩ := completeBackground_mono st1 p.1 ts id a1 hget1
          exact ⟨a', by simp only [hstt, if_true]; exact ha',
            mono_chain a a1 a' ts hcase hd⟩
        · refine ⟨a1, ?_, mono_chain a a1 a1 ts hcase (Or.inl rfl)⟩
          simp only [Bool.not_eq_true] at hstt
          simp only [hstt, if_false]
          exact hget1
    rw [processBlock, skillStep_result st b htype, launchStep_result now ts st b htype]
    unfold resultStep
    simp only [htype, show ("tool_result" == "tool_result") = true from rfl, if_true]
    cases htuid : b.tool_use_id with
    | none => exact ⟨a, hget, Or.inl rfl⟩
    | some tuid0 =>
      by_cases hne : (tuid0 != "") = true
      · simp only [hne, if_true]
        cases hagent0 : mapGet st.agentMap tuid0 with
        | none => simp only [hagent0]; exact hstage2 st a hget (Or.inl rfl)
        | some agent0 =>
          simp only [hagent0]
          by_cases hasync : containsAsyncLaunch b.content = true
          · simp only [hasync, if_true]
            cases hex : extractAgentId (contentFindText b.content).toList with
            | none => simp only [hex]; exact hstage2 st a hget (Or.inl rfl)
            | some bgId =>
              simp only [hex]
              exact hstage2 _ a hget (Or.inl rfl)
          · simp only [Bool.not_eq_true] at hasync
            simp only [hasync, Bool.false_eq_true, if_false]
            by_cases hid0 : tuid0 = id
            · subst hid0
              rw [hagent0] at hget
              cases hget
              exact hstage2 _ _ (mapGet_mapSet_self _ _ _) (Or.inr rfl)
            · refine hstage2 _ a ?_ (Or.inl rfl)
              show mapGet (mapSet st.agentMap tuid0 _) id = some a
              rw [mapGet_mapSet_ne _ _ _ _ hid0]
              exact hget
      · simp only [Bool.not_eq_true] at hne
        simp only [hne, if_false]
        exact ⟨a, hget, Or.inl rfl⟩
  · intro src id a hget
    unfold processNotificationSource
    cases hsrc : parseTaskNotification src with
    | none => simp only [hsrc]; exact ⟨a, hget, Or.inl rfl⟩
    | some p =>
      simp only [hsrc]
      by_cases hterm : isTerminalStatus p.2 = true
      · simp only [hterm, if_true]
        exact completeBackground_mono st p.1 ts id a hget
      · simp only [Bool.not_eq_true] at hterm
        simp only [hterm, if_false]
        exact ⟨a, hget, Or.inl rfl⟩
  · intro m id a hget
    refine ⟨by rw [mapGet_staleSweep, hget]; rfl, ?_⟩
    by_cases hcond : (a.status == AgentStatus.running) = true ∧
        STALE_AGENT_THRESHOLD_MS < now - a.startTime
    · right
      refine ⟨(agentStatus_beq_true _ _).mp hcond.1, ?_⟩
      simp [sweepAgent, hcond.1, hcond.2]
    · left
      unfold sweepAgent
      rw [if_neg]
      intro hc
      simp only [Bool.and_eq_true, decide_eq_true_eq] at hc
      exact hcond ⟨hc.1, hc.2⟩

/-- Witness for C10: the sweep conjunct applied to a one-record registry. -/
theorem status_monotone_witness :
    mapGet [("t1", runningT1)] "t1" = some runningT1 ∧
    mapGet (staleSweep 0 [("t1", runningT1)]) "t1" = some (sweepAgent 0 runningT1) :=
  ⟨by decide,
    ((status_monotone 0 0 initialState).2.2 [("t1", runningT1)] "t1" runningT1 (by decide)).1⟩

/-! ## Registry capacity and eviction theorems (C5) -/

lemma length_mapSet_get_some {β : Type} (m : List (String × β)) (k : String) (v v' : β)
    (h : mapGet m k = some v') : (mapSet m k v).length = m.length := by
  induction m with
  | nil => simp [mapGet] at h
  | cons x rest ih =>
    by_cases hx : x.1 = k
    · simp [mapSet, hx]
    · simp only [mapGet, hx, if_false] at h
      simp [mapSet, hx, ih h]

lemma length_mapSet_le {β : Type} (m : List (String × β)) (k : String) (v : β) :
    (mapSet m k v).length ≤ m.length + 1 := by
  induction m with
  | nil => simp [mapSet]
  | cons x rest ih =>
    by_cases hx : x.1 = k
    · simp [mapSet, hx]
    · simp only [mapSet, hx, if_false, List.length_cons]
      omega

lemma mapGet_isSome_of_mem {β : Type} (m : List (String × β)) (k : String) (v : β)
    (h : (k, v) ∈ m) : ∃ v', mapGet m k = some v' := by
  induction m with
  | nil => simp at h
  | cons x rest ih =>
    by_cases hx : x.1 = k
    · exact ⟨x.2, by simp [mapGet, hx]⟩
    · rcases List.mem_cons.mp h with rfl | hmem
      · simp at hx
      · simpa [mapGet, hx] using ih hmem

lemma length_mapDelete_get_some {β : Type} (m : List (String × β)) (k : String) (v : β)
    (h : mapGet m k = some v) : (mapDelete m k).length + 1 = m.length := by
  induction m with
  | nil => simp [mapGet] at h
  | cons x rest ih =>
    by_cases hx : x.1 = k
    · simp [mapDelete, hx]
    · simp only [mapGet, hx, if_false] at h
      simp only [mapDelete, hx, if_false, List.length_cons]
      have := ih h
      omega

lemma oldestWith_aux (p : ActiveAgent → Bool) (m : List (String × ActiveAgent)) :
    ∀ acc : Option (String × Int),
      (List.foldl
          (fun acc x =>
            match acc with
            | none => if p x.2 then some (x.1, x.2.startTime) else none
            | some (oid, t) =>
              if p x.2 && x.2.startTime < t then some (x.1, x.2.startTime)
              else some (oid, t))
          acc m = none ↔ acc = none ∧ ∀ x ∈ m, p x.2 = false) ∧
      (∀ id t,
        List.foldl
          (fun acc x =>
            match acc with
            | none => if p x.2 then some (x.1, x.2.startTime) else none
            | some (oid, t) =>
              if p x.2 && x.2.startTime < t then some (x.1, x.2.startTime)
              else some (oid, t))
          acc m = some (id, t) →
        ((acc = some (id, t) ∨ ∃ x, x ∈ m ∧ x.1 = id ∧ p x.2 = true ∧ x.2.startTime = t) ∧
         (∀ x ∈ m, p x.2 = true → t ≤ x.2.startTime) ∧
         (∀ k s, acc = some (k, s) → t ≤ s))) := by
  induction m with
  | nil =>
    intro acc
    refine ⟨by simp, ?_⟩
    intro id t h
    simp only [List.foldl_nil] at h
    refine ⟨Or.inl h, by simp, ?_⟩
    intro k s hks
    rw [h] at hks
    cases hks
    exact le_refl t
  | cons x xs ih =>
    intro acc
    constructor
    · rw [List.foldl_cons]
      rw [(ih _).1]
      constructor
      · rintro ⟨hstep, hxs⟩
        match acc with
        | none =>
          refine ⟨rfl, ?_⟩
          intro y hy
          rcases List.mem_cons.mp hy with rfl | hmem
          · by_cases hp : p y.2 = true
            · simp [hp] at hstep
            · simpa using hp
          · exact hxs y hmem
        | some (o, s) =>
          exfalso
          by_cases hc : (p x.2 && decide (x.2.startTime < s)) = true
          · simp [hc] at hstep
          · simp only [Bool.not_eq_true] at hc
            simp [hc] at hstep
      · rintro ⟨rfl, hall⟩
        have hx := hall x (List.mem_cons_self x xs)
        refine ⟨by simp [hx], ?_⟩
        intro y hy
        exact hall y (List.mem_cons_of_mem x hy)
    · intro id t h
      rw [List.foldl_cons] at h
      obtain ⟨hsource, hmin, hbound⟩ := (ih _).2 id t h
      match acc with
      | none =>
        by_cases hp : p x.2 = true
        · simp only [hp, if_true] at hsource hmin hbound
          refine ⟨?_, ?_, by simp⟩
          · right
            rcases hsource with heq | ⟨y, hy, hyid, hyp, hyt⟩
            · cases heq
              exact ⟨x, List.mem_cons_self x xs, rfl, hp, rfl⟩
            · exact ⟨y, List.mem_cons_of_mem x hy, hyid, hyp, hyt⟩
          · intro y hy hyp
            rcases List.mem_cons.mp hy with rfl | hmem
            · exact hbound _ _ rfl
            · exact hmin y hmem hyp
        · simp only [Bool.not_eq_true] at hp
          simp only [hp, if_false] at hsource hmin hbound
          refine ⟨?_, ?_, by simp⟩
          · rcases hsource with heq | ⟨y, hy, hyid, hyp, hyt⟩
            · cases heq
            · exact Or.inr ⟨y, List.mem_cons_of_mem x hy, hyid, hyp, hyt⟩
          · intro y hy hyp
            rcases List.mem_cons.mp hy with rfl | hmem
            · rw [hyp] at hp; cases hp
            · exact hmin y hmem hyp
      | some (o, s) =>
        by_cases hc : (p x.2 && decide (x.2.startTime < s)) = true
        · simp only [hc, if_true] at hsource hmin hbound
          have hps : p x.2 = true ∧ x.2.startTime < s := by
            simpa using hc
          refine ⟨?_, ?_, ?_⟩
          · rcases hsource with heq | ⟨y, hy, hyid, hyp, hyt⟩
            · cases heq
              exact Or.inr ⟨x, List.mem_cons_self x xs, rfl, hps.1, rfl⟩
            · exact Or.inr ⟨y, List.mem_cons_of_mem x hy, hyid, hyp, hyt⟩
          · intro y hy hyp
            rcases List.mem_cons.mp hy with rfl | hmem
            · exact hbound _ _ rfl
            · exact hmin y hmem hyp
          · intro k s' hks
            cases hks
            have ht := hbound _ _ rfl
            omega
        · simp only [Bool.not_eq_true] at hc
          simp only [hc, if_false] at hsource hmin hbound
          refine ⟨?_, ?_, ?_⟩
          · rcases hsource with heq | ⟨y, hy, hyid, hyp, hyt⟩
            · cases heq
              exact Or.inl rfl
            · exact Or.inr ⟨y, List.mem_cons_of_mem x hy, hyid, hyp, hyt⟩
          · intro y hy hyp
            rcases List.mem_cons.mp hy with rfl | hmem
            · have hns : ¬ y.2.startTime < s := by
                intro hlt
                have : (p y.2 && decide (y.2.startTime < s)) = true := by
                  simp [hyp, hlt]
                rw [this] at hc
                cases hc
              have := hbound _ _ rfl
              omega
            · exact hmin y hmem hyp
          · intro k s' hks
            cases hks
            exact hbound _ _ rfl

lemma oldestWith_none_iff (p : ActiveAgent → Bool) (m : AgentMap) :
    oldestWith p m = none ↔ ∀ x ∈ m, p x.2 = false := by
  unfold oldestWith
  rw [Option.map_eq_none']
  rw [(oldestWith_aux p m none).1]
  simp

lemma oldestWith_spec (p : ActiveAgent → Bool) (m : AgentMap) (id : String)
    (h : oldestWith p m = some id) :
    ∃ a, (id, a) ∈ m ∧ p a = true ∧
      ∀ y ∈ m, p y.2 = true → a.startTime ≤ y.2.startTime := by
  unfold oldestWith at h
  rw [Option.map_eq_some'] at h
  obtain ⟨⟨id', t⟩, hfold, hfst⟩ := h
  cases hfst
  obtain ⟨hsource, hmin, _⟩ := (oldestWith_aux p m none).2 id' t hfold
  rcases hsource with heq | ⟨x, hx, hxid, hxp, hxt⟩
  · cases heq
  · subst hxid
    refine ⟨x.2, ?_, hxp, ?_⟩
    · exact (by rwa [show (x.1, x.2) = x from rfl])
    · intro y hy hyp
      rw [hxt]
      exact hmin y hy hyp

lemma status_beq_completed_false (a : AgentStatus) :
    ((a == .completed) = false) ↔ a = .running := by
  cases a <;> simp [BEq.beq]

lemma evictionCandidate_none_iff (evictionNow : Int) (m : AgentMap) :
    evictionCandidate evictionNow m = none ↔
      ∀ x ∈ m, x.2.status = .running ∧
        evictionNow - x.2.startTime ≤ STALE_AGENT_THRESHOLD_MS := by
  unfold evictionCandidate
  cases h1 : oldestWith (fun a => a.status == .completed) m with
  | some oid =>
    simp only []
    constructor
    · intro h
      cases h
    · intro hall
      exfalso
      obtain ⟨a, hmem, hp, _⟩ := oldestWith_spec _ m oid h1
      have := (hall (oid, a) hmem).1
      rw [this] at hp
      simp [BEq.beq] at hp
  | none =>
    simp only []
    have hrun : ∀ x ∈ m, x.2.status = .running := by
      intro x hx
      exact (status_beq_completed_false _).mp ((oldestWith_none_iff _ m).mp h1 x hx)
    rw [oldestWith_none_iff]
    constructor
    · intro hall x hx
      refine ⟨hrun x hx, ?_⟩
      have := hall x hx
      simp only [hrun x hx, Bool.true_and] at this
      simpa using this
    · intro hall x hx
      simp only [hrun x hx]
      simp only [show ((AgentStatus.running == AgentStatus.running) : Bool) = true from rfl,
        Bool.true_and]
      simpa using (hall x hx).2

lemma evictionCandidate_completed_pref (evictionNow : Int) (m : AgentMap) (id : String)
    (h : evictionCandidate evictionNow m = some id)
    (hex : ∃ x ∈ m, x.2.status = .completed) :
    ∃ a, (id, a) ∈ m ∧ a.status = .completed ∧
      ∀ y ∈ m, y.2.status = .completed → a.startTime ≤ y.2.startTime := by
  unfold evictionCandidate at h
  cases h1 : oldestWith (fun a => a.status == .completed) m with
  | none =>
    exfalso
    obtain ⟨x, hx, hxc⟩ := hex
    have := (oldestWith_none_iff _ m).mp h1 x hx
    rw [hxc] at this
    simp [BEq.beq] at this
  | some oid =>
    rw [h1] at h
    have hoid : oid = id := by injection h
    subst hoid
    obtain ⟨a, hmem, hp, hmin⟩ := oldestWith_spec _ m oid h1
    refine ⟨a, hmem, (agentStatus_beq_true _ _).mp hp, ?_⟩
    intro y hy hyc
    exact hmin y hy (by rw [hyc]; rfl)

lemma evictionCandidate_stale_pref (evictionNow : Int) (m : AgentMap) (id : String)
    (h : evictionCandidate evictionNow m = some id)
    (hnc : ∀ x ∈ m, x.2.status ≠ .completed) :
    ∃ a, (id, a) ∈ m ∧ a.status = .running ∧
      STALE_AGENT_THRESHOLD_MS < evictionNow - a.startTime ∧
      ∀ y ∈ m, y.2.status = .running →
        STALE_AGENT_THRESHOLD_MS < evictionNow - y.2.startTime →
        a.startTime ≤ y.2.startTime := by
  unfold evictionCandidate at h
  cases h1 : oldestWith (fun a => a.status == .completed) m with
  | some oid =>
    exfalso
    obtain ⟨a, hmem, hp, _⟩ := oldestWith_spec _ m oid h1
    exact hnc (oid, a) hmem ((agentStatus_beq_true _ _).mp hp)
  | none =>
    rw [h1] at h
    obtain ⟨a, hmem, hp, hmin⟩ := oldestWith_spec _ m id h
    simp only [Bool.and_eq_true, decide_eq_true_eq] at hp
    refine ⟨a, hmem, (agentStatus_beq_true _ _).mp hp.1, hp.2, ?_⟩
    intro y hy hyr hystale
    refine hmin y hy ?_
    simp only [Bool.and_eq_true, decide_eq_true_eq]
    exact ⟨(agentStatus_beq_true _ _).mpr hyr, hystale⟩


lemma evictionCandidate_mem (evictionNow : Int) (m : AgentMap) (id : String)
    (h : evictionCandidate evictionNow m = some id) : ∃ a, (id, a) ∈ m := by
  unfold evictionCandidate at h
  cases h1 : oldestWith (fun a => a.status == .completed) m with
  | some oid =>
    rw [h1] at h
    have hoid : oid = id := by injection h
    subst hoid
    obtain ⟨a, hmem, _, _⟩ := oldestWith_spec _ m oid h1
    exact ⟨a, hmem⟩
  | none =>
    rw [h1] at h
    obtain ⟨a, hmem, _, _⟩ := oldestWith_spec _ m id h
    exact ⟨a, hmem⟩

lemma insertAgent_sizeOk (evictionNow : Int) (st : ReplayState) (bid : String)
    (e : ActiveAgent) (h : sizeOk st) : sizeOk (insertAgent evictionNow st bid e) := by
  unfold insertAgent
  by_cases hcap : MAX_AGENT_MAP_SIZE ≤ st.agentMap.length
  · simp only [hcap, if_true]
    cases hcand : evictionCandidate evictionNow st.agentMap with
    | some oldestId =>
      simp only [hcand]
      intro hov
      have hlen := h hov
      obtain ⟨a, hmem⟩ := evictionCandidate_mem evictionNow st.agentMap oldestId hcand
      obtain ⟨v', hget⟩ := mapGet_isSome_of_mem st.agentMap oldestId a hmem
      have hdel := length_mapDelete_get_some st.agentMap oldestId v' hget
      have hset := length_mapSet_le (mapDelete st.agentMap oldestId) bid e
      dsimp only
      omega
    | none =>
      simp only [hcand]
      intro hov
      simp at hov
  · simp only [hcap, if_false]
    intro hov
    have hset := length_mapSet_le st.agentMap bid e
    dsimp only
    omega

lemma completeBackground_fields (st : ReplayState) (taskId : String) (ts : Int) :
    (completeBackground st taskId ts).agentMap.length = st.agentMap.length ∧
    (completeBackground st taskId ts).overflowed = st.overflowed := by
  unfold completeBackground
  cases hbg : mapGet st.backgroundAgentMap taskId with
  | none => exact ⟨rfl, rfl⟩
  | some tuid =>
    simp only []
    cases hagent : mapGet st.agentMap tuid with
    | none => exact ⟨rfl, rfl⟩
    | some bgAgent =>
      simp only []
      by_cases hrun : (bgAgent.status == AgentStatus.running) = true
      · simp only [hrun, if_true]
        exact ⟨length_mapSet_get_some _ _ _ _ hagent, by trivial⟩
      · simp only [hrun]
        simp only [Bool.not_eq_true] at hrun
        simp [hrun]

lemma skillStep_fields (st : ReplayState) (b : MsgBlock) :
    (skillStep st b).agentMap = st.agentMap ∧
    (skillStep st b).overflowed = st.overflowed := by
  unfold skillStep
  split
  · split
    · split
      · exact ⟨rfl, rfl⟩
      · exact ⟨rfl, rfl⟩
    · exact ⟨rfl, rfl⟩
  · exact ⟨rfl, rfl⟩

lemma launchStep_sizeOk (evictionNow ts : Int) (st : ReplayState) (b : MsgBlock)
    (h : sizeOk st) : sizeOk (launchStep evictionNow ts st b) := by
  unfold launchStep
  cases b.id with
  | none => exact h
  | some bid =>
    simp only []
    split
    · exact insertAgent_sizeOk _ _ _ _ h
    · exact h

lemma resultStep_sizeOk (ts : Int) (st : ReplayState) (b : MsgBlock)
    (h : sizeOk st) : sizeOk (resultStep ts st b) := by
  unfold resultStep
  split
  · cases htuid : b.tool_use_id with
    | none => exact h
    | some tuid =>
      simp only []
      split
      · have hst1 : ∀ st1 : ReplayState, sizeOk st1 →
            sizeOk (match parseTaskOutputResult b.content with
                    | some (taskId, status) =>
                      if status == "completed" then completeBackground st1 taskId ts else st1
                    | none => st1) := by
          intro st1 h1
          cases hout : parseTaskOutputResult b.content with
          | none => simp only [hout]; exact h1
          | some p =>
            simp only [hout]
            split
            · have hf := completeBackground_fields st1 p.1 ts
              intro hov
              rw [hf.1]
              exact h1 (hf.2 ▸ hov)
            · exact h1
        apply hst1
        cases hagent : mapGet st.agentMap tuid with
        | none => simp only [hagent]; exact h
        | some agent =>
          simp only [hagent]
          split
          · split
            · intro hov
              exact h hov
            · exact h
          · intro hov
            have := length_mapSet_get_some st.agentMap tuid
              { agent with status := .completed, endTime := some ts } agent hagent
            rw [this]
            exact h hov
      · exact h
  · exact h

lemma processBlock_sizeOk (evictionNow ts : Int) (st : ReplayState) (b : MsgBlock)
    (h : sizeOk st) : sizeOk (processBlock evictionNow ts st b) := by
  unfold processBlock
  apply resultStep_sizeOk
  apply launchStep_sizeOk
  have hf := skillStep_fields st b
  intro hov
  rw [hf.1]
  exact h (hf.2 ▸ hov)

lemma processNotificationSource_sizeOk (ts : Int) (st : ReplayState) (src : BlockContent)
    (h : sizeOk st) : sizeOk (processNotificationSource ts st src) := by
  unfold processNotificationSource
  cases hsrc : parseTaskNotification src with
  | none => exact h
  | some p =>
    simp only []
    split
    · have hf := completeBackground_fields st p.1 ts
      intro hov
      rw [hf.1]
      exact h (hf.2 ▸ hov)
    · exact h

lemma foldl_preserve {α : Type} (P : ReplayState → Prop) (f : ReplayState → α → ReplayState)
    (hf : ∀ st x, P st → P (f st x)) :
    ∀ (l : List α) (st : ReplayState), P st → P (List.foldl f st l) := by
  intro l
  induction l with
  | nil => intro st h; exact h
  | cons x xs ih =>
    intro st h
    exact ih (f st x) (hf st x h)

lemma processEntry_sizeOk (now : Int) (st : ReplayState) (e : TranscriptEntry)
    (h : sizeOk st) : sizeOk (processEntry now st e) := by
  unfold processEntry
  apply foldl_preserve sizeOk _ (fun st src => processNotificationSource_sizeOk _ st src)
  cases e.message with
  | blocks bs =>
    exact foldl_preserve sizeOk _
      (fun st b => processBlock_sizeOk now (e.timestamp.getD now) st b) bs st h
  | str s => exact h
  | absent => exact h

/-- Claim C5 (confirmed): every block step and notification step preserves
the capacity invariant (registry size within the soft cap unless a
graceful overflow has occurred), so for every replayed transcript whose
insertions never hit the no-candidate case the final registry size is at
most `MAX_AGENT_MAP_SIZE`; no evictable candidate exists exactly when every
record is running and not past the staleness threshold; and the eviction
candidate is the oldest completed record by `startTime` when one exists,
else the oldest stale running record. -/
theorem registry_capacity :
    (∀ (evictionNow ts : Int) (st : ReplayState) (b : MsgBlock),
      sizeOk st → sizeOk (processBlock evictionNow ts st b)) ∧
    (∀ (ts : Int) (st : ReplayState) (src : BlockContent),
      sizeOk st → sizeOk (processNotificationSource ts st src)) ∧
    (∀ (now : Int) (entries : List TranscriptEntry),
      (replayEntries now entries).overflowed = false →
      (replayEntries now entries).agentMap.length ≤ MAX_AGENT_MAP_SIZE) ∧
    (∀ (evictionNow : Int) (m : AgentMap),
      evictionCandidate evictionNow m = none ↔
        ∀ x ∈ m, x.2.status = .running ∧
          evictionNow - x.2.startTime ≤ STALE_AGENT_THRESHOLD_MS) ∧
    (∀ (evictionNow : Int) (m : AgentMap) (id : String),
      evictionCandidate evictionNow m = some id →
      (∃ x ∈ m, x.2.status = .completed) →
      ∃ a, (id, a) ∈ m ∧ a.status = .completed ∧
        ∀ y ∈ m, y.2.status = .completed → a.startTime ≤ y.2.startTime) ∧
    (∀ (evictionNow : Int) (m : AgentMap) (id : String),
      evictionCandidate evictionNow m = some id →
      (∀ x ∈ m, x.2.status ≠ .completed) →
      ∃ a, (id, a) ∈ m ∧ a.status = .running ∧
        STALE_AGENT_THRESHOLD_MS < evictionNow - a.startTime ∧
        ∀ y ∈ m, y.2.status = .running →
          STALE_AGENT_THRESHOLD_MS < evictionNow - y.2.startTime →
          a.startTime ≤ y.2.startTime) := by
  refine ⟨processBlock_sizeOk, processNotificationSource_sizeOk, ?_,
    evictionCandidate_none_iff, evictionCandidate_completed_pref,
    evictionCandidate_stale_pref⟩
  intro now entries
  have : sizeOk (replayEntries now entries) := by
    unfold replayEntries
    apply foldl_preserve sizeOk _ (fun st e => processEntry_sizeOk now st e)
    intro hov
    simp [initialState, MAX_AGENT_MAP_SIZE]
  exact this

/-- Witness for C5: the capacity bound evaluated on a one-launch replay. -/
theorem registry_capacity_witness :
    (replayEntries 0 [launchEntry]).overflowed = false ∧
    (replayEntries 0 [launchEntry]).agentMap.length ≤ MAX_AGENT_MAP_SIZE :=
  ⟨by decide, (registry_capacity.2.2.1 0 [launchEntry]) (by decide)⟩
